import Mathlib

/-!
# LinePeek core: shallow embedding and verification

This file embeds the core counting, formatting, caching, glob-matching and
aggregation logic of the LinePeek VS Code extension (files
`src/lineCounter.ts` and `src/extension.ts`) as executable Lean definitions,
and proves (or refutes) the specified properties about them.

Conventions of the embedding:
* File contents are byte lists (`List Nat`, each entry < 256); text is
  `String` / `List Char`.  JavaScript strings are modelled over Lean `Char`.
* `toLowerCase` is modelled by ASCII lowercasing (`Char.toLower`); all
  inputs appearing in the verified properties are ASCII.
* Fallible host calls (stat, read) are modelled with `Option`.
-/

namespace LinePeek

/-! ## Line counter (src/lineCounter.ts, countLines)

The stream handler increments a counter for every byte equal to 10 (LF).
On end: if the counter is zero, the result is 0 for a size-0 file and 1
otherwise; if the counter is positive, the result is counter + 1.
(The stat-failure fallback of the source, which resolves 0 when the file
vanished between read and stat, is outside this model: we model a readable
file whose bytes are given.) -/
def countLines (bytes : List Nat) : Nat :=
  let nl := bytes.count 10
  if nl = 0 then
    if bytes.length = 0 then 0 else 1
  else
    nl + 1

/-! ## Compact formatter (src/lineCounter.ts, formatCompactNumber)

Source:
```
if (num < 1000) return num.toString();
if (num < 1000000) return (num / 1000).toFixed(1).replace(/\.0$/, '') + 'k';
return (num / 1000000).toFixed(1).replace(/\.0$/, '') + 'M';
```
`(num / d).toFixed(1)` followed by stripping a trailing ".0" is modelled by
exact rational rounding of `num / d` to one decimal place, half-up.  This is
exact for every input whose scaled value is not a floating-point tie at the
second decimal; all inputs used in theorems below are tie-free or fall in
the integer branch. -/
def toFixed1Strip (num d : Nat) : String :=
  let q := (10 * num + d / 2) / d
  if q % 10 = 0 then toString (q / 10)
  else toString (q / 10) ++ "." ++ toString (q % 10)

def formatCompactNumber (num : Nat) : String :=
  if num < 1000 then toString num
  else if num < 1000000 then toFixed1Strip num 1000 ++ "k"
  else toFixed1Strip num 1000000 ++ "M"

/-- JavaScript `String.prototype.endsWith`, over the character sequence. -/
def strEndsWith (s suf : String) : Bool :=
  suf.data.isSuffixOf s.data

/-! ## Directory badge (extension.ts, createDecoration, isDirectory branch)

Source:
```
const compact = formatCompactNumber(count);
if (count < 10)                { badge = `∑${count}`; }
else if (compact.endsWith('H')) { badge = `∑H`; }
else if (compact.endsWith('k') || compact.endsWith('+')) { badge = `∑k`; }
else                            { badge = `∑+`; }
```
-/
def directoryBadge (count : Nat) : String :=
  let compact := formatCompactNumber count
  if count < 10 then "∑" ++ toString count
  else if strEndsWith compact "H" then "∑H"
  else if strEndsWith compact "k" || strEndsWith compact "+" then "∑k"
  else "∑+"

/-! ## UTF-8 encoding (the byte stream seen by countLines for text content) -/
def encodeChar (c : Char) : List Nat :=
  if c.toNat < 128 then [c.toNat]
  else if c.toNat < 2048 then [192 + c.toNat / 64, 128 + c.toNat % 64]
  else if c.toNat < 65536 then
    [224 + c.toNat / 4096, 128 + (c.toNat / 64) % 64, 128 + c.toNat % 64]
  else
    [240 + c.toNat / 262144, 128 + (c.toNat / 4096) % 64,
     128 + (c.toNat / 64) % 64, 128 + c.toNat % 64]

def encodeUtf8 (s : List Char) : List Nat :=
  s.flatMap encodeChar

def strBytes (s : String) : List Nat :=
  encodeUtf8 s.data

/-! ### Facts about countLines -/

theorem char_toNat_eq_ten_iff (c : Char) : c.toNat = 10 ↔ c = '\n' := by
  constructor
  · intro h
    apply Char.ext
    apply UInt32.ext
    exact h
  · intro h; subst h; rfl

theorem count10_encodeChar (c : Char) :
    (encodeChar c).count 10 = if c = '\n' then 1 else 0 := by
  by_cases h : c.toNat = 10
  · have hc : c = '\n' := (char_toNat_eq_ten_iff c).mp h
    subst hc; decide
  · have hc : ¬ c = '\n' := fun he => h ((char_toNat_eq_ten_iff c).mpr he)
    rw [if_neg hc]
    unfold encodeChar
    split
    · simp [List.count_cons, h]
    · split
      · have h1 : 192 + c.toNat / 64 ≠ 10 := by omega
        have h2 : 128 + c.toNat % 64 ≠ 10 := by omega
        simp [List.count_cons, h1, h2, h]
      · split
        · have h1 : 224 + c.toNat / 4096 ≠ 10 := by omega
          have h2 : 128 + (c.toNat / 64) % 64 ≠ 10 := by omega
          have h3 : 128 + c.toNat % 64 ≠ 10 := by omega
          simp [List.count_cons, h1, h2, h3, h]
        · have h1 : 240 + c.toNat / 262144 ≠ 10 := by omega
          have h2 : 128 + (c.toNat / 4096) % 64 ≠ 10 := by omega
          have h3 : 128 + (c.toNat / 64) % 64 ≠ 10 := by omega
          have h4 : 128 + c.toNat % 64 ≠ 10 := by omega
          simp [List.count_cons, h1, h2, h3, h4, h]

theorem count10_encodeUtf8 (s : List Char) :
    (encodeUtf8 s).count 10 = s.count '\n' := by
  induction s with
  | nil => simp [encodeUtf8]
  | cons c cs ih =>
    simp only [encodeUtf8, List.flatMap_cons, List.count_append]
    rw [show (cs.flatMap encodeChar) = encodeUtf8 cs from rfl, ih,
      count10_encodeChar, List.count_cons]
    by_cases h : c = '\n' <;> simp [h, Nat.add_comm]

theorem encodeChar_ne_nil (c : Char) : encodeChar c ≠ [] := by
  unfold encodeChar
  split
  · simp
  · split
    · simp
    · split <;> simp

theorem encodeUtf8_eq_nil_iff (s : List Char) : encodeUtf8 s = [] ↔ s = [] := by
  cases s with
  | nil => simp [encodeUtf8]
  | cons c cs =>
    simp only [encodeUtf8, List.flatMap_cons]
    constructor
    · intro h
      exact absurd (List.append_eq_nil.mp h).1 (encodeChar_ne_nil c)
    · intro h; cases h

/-- C1: `countLines` returns 0 iff the byte size is 0; returns 1 when the
size is positive and there is no linefeed byte (0x0A); returns `nl + 1`
when the linefeed count `nl` is positive.  The result depends only on
emptiness and the linefeed count (carriage-return bytes are never counted
separately), and CRLF-terminated content yields exactly one counted line
per linefeed. -/
theorem countLines_correct (bytes : List Nat) :
    (countLines bytes = 0 ↔ bytes.length = 0) ∧
    (0 < bytes.length → bytes.count 10 = 0 → countLines bytes = 1) ∧
    (0 < bytes.count 10 → countLines bytes = bytes.count 10 + 1) ∧
    (∀ other : List Nat, other.count 10 = bytes.count 10 →
      (other.length = 0 ↔ bytes.length = 0) → countLines other = countLines bytes) ∧
    countLines (strBytes "Line 1\r\nLine 2\r\nLine 3") = 3 ∧
    countLines (strBytes "Line 1\nLine 2\nLine 3") = 3 := by
  refine ⟨?_, ?_, ?_, ?_, by decide, by decide⟩
  · unfold countLines
    constructor
    · intro h
      by_cases hnl : bytes.count 10 = 0
      · simp only [hnl, if_pos rfl] at h
        by_cases hlen : bytes.length = 0
        · exact hlen
        · simp [hlen] at h
      · simp [hnl] at h
    · intro h
      have : bytes = [] := List.length_eq_zero.mp h
      subst this; decide
  · intro hlen hnl
    unfold countLines
    simp [hnl, Nat.pos_iff_ne_zero.mp hlen]
  · intro hnl
    unfold countLines
    simp [Nat.pos_iff_ne_zero.mp hnl]
  · intro other hcount hlen
    unfold countLines
    rw [hcount]
    by_cases h : bytes.count 10 = 0
    · by_cases h2 : bytes.length = 0
      · simp [h, h2, hlen.mpr h2]
      · have : ¬ other.length = 0 := fun hc => h2 (hlen.mp hc)
        simp [h, h2, this]
    · simp [h]

/-- Witness instantiating the conditional parts of the C1 theorem at a
concrete byte list (72, 10, 72: two linefeed-separated characters). -/
theorem countLines_correct_witness :
    0 < (([72, 10, 72] : List Nat)).count 10 ∧ countLines [72, 10, 72] = 2 :=
  ⟨by decide, (countLines_correct [72, 10, 72]).2.2.1 (by decide)⟩

/-- C2 (refuted): the compact formatter of the source does not implement the
claimed `H`/`k`/`k+` tiers.  `formatCompactNumber 100 = "100"` (claim and the
repository's own test suite say `"1H"`), `950 ↦ "950"` (tests say `"1k"`),
`1500 ↦ "1.5k"` (tests say `"2k"`), `9500 ↦ "9.5k"` (tests say `"k+"`),
`1000000 ↦ "1M"` (tests say `"k+"`). -/
theorem formatCompactNumber_violates_claim :
    formatCompactNumber 0 = "0" ∧
    formatCompactNumber 99 = "99" ∧
    formatCompactNumber 100 = "100" ∧ formatCompactNumber 100 ≠ "1H" ∧
    formatCompactNumber 950 = "950" ∧ formatCompactNumber 950 ≠ "1k" ∧
    formatCompactNumber 1000 = "1k" ∧
    formatCompactNumber 1500 = "1.5k" ∧ formatCompactNumber 1500 ≠ "2k" ∧
    formatCompactNumber 9500 = "9.5k" ∧ formatCompactNumber 9500 ≠ "k+" ∧
    formatCompactNumber 10000 = "10k" ∧ formatCompactNumber 10000 ≠ "k+" ∧
    formatCompactNumber 1000000 = "1M" ∧ formatCompactNumber 1000000 ≠ "k+" := by
  refine ⟨?_, ?_, ?_, ?_, ?_, ?_, ?_, ?_, ?_, ?_, ?_, ?_, ?_, ?_, ?_⟩ <;> decide

/-- C3 (refuted): the output of the source's `formatCompactNumber` is not
bounded by 2 visible characters: `100 ↦ "100"` (3 characters) and
`1234 ↦ "1.2k"` (4 characters). -/
theorem formatCompactNumber_length_violates_claim :
    (formatCompactNumber 100).length = 3 ∧
    formatCompactNumber 1234 = "1.2k" ∧ (formatCompactNumber 1234).length = 4 := by
  refine ⟨?_, ?_, ?_⟩ <;> decide

/-- C8 (refuted at the hundreds tier): with the source's compact formatter,
no total ever compacts to a string ending in `H`, so a hundreds-tier total
such as 100 renders as the fallback badge `∑+` instead of the claimed `∑H`.
Single-digit totals and thousands-tier totals behave as claimed. -/
theorem directoryBadge_violates_claim :
    directoryBadge 5 = "∑5" ∧
    directoryBadge 100 = "∑+" ∧ directoryBadge 100 ≠ "∑H" ∧
    directoryBadge 2000 = "∑k" ∧
    directoryBadge 50 = "∑+" ∧
    directoryBadge 1000000 = "∑+" := by
  refine ⟨?_, ?_, ?_, ?_, ?_, ?_⟩ <;> decide

/-! ## Cache & invalidation layer (extension.ts, getFileDecoration)

Source (the count/caching part):
```
const cached = this.cache.get(uriString);
if (cached && cached.mtime === stat.mtime) {
  this.cacheHits++;
  return this.createDecoration(cached.count, stat.size, uri);
}
this.cacheMisses++;
const count = await countLines(uri.fsPath);
this.cache.set(uriString, { count, size: stat.size, mtime: stat.mtime });
return this.createDecoration(count, stat.size, uri);
```
The cache is a JS `Map` keyed by the URI string; we model it as an
association list with first-occurrence update (JS `Map` keys are unique, so
this is the same function).  `recomputed` records whether the miss path ran
(the file was re-read and counted). -/
structure CacheEntry where
  count : Nat
  size : Nat
  mtime : Nat
deriving DecidableEq

def cacheGet (cache : List (String × CacheEntry)) (k : String) : Option CacheEntry :=
  (cache.find? (fun p => p.1 == k)).map (·.2)

def cacheSet : List (String × CacheEntry) → String → CacheEntry → List (String × CacheEntry)
  | [], k, v => [(k, v)]
  | p :: ps, k, v => if p.1 == k then (k, v) :: ps else p :: cacheSet ps k v

structure DecorationOutcome where
  count : Nat
  cache : List (String × CacheEntry)
  recomputed : Bool
deriving DecidableEq

def getFileDecorationCount (cache : List (String × CacheEntry)) (uriString : String)
    (statMtime statSize : Nat) (fileBytes : List Nat) : DecorationOutcome :=
  match cacheGet cache uriString with
  | some cached =>
    if cached.mtime = statMtime then
      ⟨cached.count, cache, false⟩
    else
      let count := countLines fileBytes
      ⟨count, cacheSet cache uriString ⟨count, statSize, statMtime⟩, true⟩
  | none =>
    let count := countLines fileBytes
    ⟨count, cacheSet cache uriString ⟨count, statSize, statMtime⟩, true⟩

theorem cacheGet_cacheSet_self (c : List (String × CacheEntry)) (k : String) (v : CacheEntry) :
    cacheGet (cacheSet c k v) k = some v := by
  induction c with
  | nil => simp [cacheGet, cacheSet]
  | cons p ps ih =>
    by_cases h : p.1 == k
    · simp [cacheGet, cacheSet, h, List.find?]
    · simp only [cacheSet, h, if_neg, Bool.false_eq_true, reduceIte]
      simpa [cacheGet, List.find?, h] using ih

/-- C4: a lookup is a hit exactly when there is a stored entry whose
modification-time equals the freshly obtained one; on a hit the stored count
is returned without re-reading the file and the cache is unchanged; any
other outcome (no entry, timestamp mismatch) recomputes the count and
replaces the entry wholesale.  Consequently a second request with an
unchanged modification-time is always a hit returning the identical count,
and a changed modification-time always forces recomputation. -/
theorem cache_lookup_correct (cache : List (String × CacheEntry)) (uri : String)
    (mt sz : Nat) (bytes : List Nat) :
    ((getFileDecorationCount cache uri mt sz bytes).recomputed = false ↔
      ∃ e, cacheGet cache uri = some e ∧ e.mtime = mt) ∧
    (∀ e, cacheGet cache uri = some e → e.mtime = mt →
      (getFileDecorationCount cache uri mt sz bytes).count = e.count ∧
      (getFileDecorationCount cache uri mt sz bytes).cache = cache) ∧
    ((getFileDecorationCount cache uri mt sz bytes).recomputed = true →
      (getFileDecorationCount cache uri mt sz bytes).count = countLines bytes ∧
      cacheGet (getFileDecorationCount cache uri mt sz bytes).cache uri =
        some ⟨countLines bytes, sz, mt⟩) ∧
    (∀ sz2 bytes2,
      (getFileDecorationCount (getFileDecorationCount cache uri mt sz bytes).cache
          uri mt sz2 bytes2).recomputed = false ∧
      (getFileDecorationCount (getFileDecorationCount cache uri mt sz bytes).cache
          uri mt sz2 bytes2).count = (getFileDecorationCount cache uri mt sz bytes).count) ∧
    (∀ mt2 sz2 bytes2, mt2 ≠ mt →
      (getFileDecorationCount (getFileDecorationCount cache uri mt sz bytes).cache
          uri mt2 sz2 bytes2).recomputed = true ∧
      (getFileDecorationCount (getFileDecorationCount cache uri mt sz bytes).cache
          uri mt2 sz2 bytes2).count = countLines bytes2) := by
  have hit : ∀ (c : List (String × CacheEntry)) (u : String) (m s : Nat) (b : List Nat) e,
      cacheGet c u = some e → e.mtime = m →
      getFileDecorationCount c u m s b = ⟨e.count, c, false⟩ := by
    intro c u m s b e he hm
    unfold getFileDecorationCount
    rw [he]
    simp [hm]
  have missNone : ∀ (c : List (String × CacheEntry)) (u : String) (m s : Nat) (b : List Nat),
      cacheGet c u = none →
      getFileDecorationCount c u m s b =
        ⟨countLines b, cacheSet c u ⟨countLines b, s, m⟩, true⟩ := by
    intro c u m s b he
    unfold getFileDecorationCount
    rw [he]
  have missStale : ∀ (c : List (String × CacheEntry)) (u : String) (m s : Nat) (b : List Nat) e,
      cacheGet c u = some e → e.mtime ≠ m →
      getFileDecorationCount c u m s b =
        ⟨countLines b, cacheSet c u ⟨countLines b, s, m⟩, true⟩ := by
    intro c u m s b e he hm
    unfold getFileDecorationCount
    rw [he]
    simp [hm]
  have hafter : ∃ e, cacheGet (getFileDecorationCount cache uri mt sz bytes).cache uri =
      some e ∧ e.mtime = mt ∧ e.count = (getFileDecorationCount cache uri mt sz bytes).count := by
    cases hg : cacheGet cache uri with
    | none =>
      rw [missNone cache uri mt sz bytes hg]
      exact ⟨_, cacheGet_cacheSet_self cache uri _, rfl, rfl⟩
    | some e =>
      by_cases hm : e.mtime = mt
      · rw [hit cache uri mt sz bytes e hg hm]
        exact ⟨e, hg, hm, rfl⟩
      · rw [missStale cache uri mt sz bytes e hg hm]
        exact ⟨_, cacheGet_cacheSet_self cache uri _, rfl, rfl⟩
  refine ⟨?_, ?_, ?_, ?_, ?_⟩
  · cases hg : cacheGet cache uri with
    | none =>
      rw [missNone cache uri mt sz bytes hg]
      simp [hg]
    | some e =>
      by_cases hm : e.mtime = mt
      · rw [hit cache uri mt sz bytes e hg hm]
        exact ⟨fun _ => ⟨e, rfl, hm⟩, fun _ => rfl⟩
      · rw [missStale cache uri mt sz bytes e hg hm]
        constructor
        · intro h; cases h
        · rintro ⟨e2, he2, hm2⟩
          obtain rfl : e = e2 := by injection he2
          exact absurd hm2 hm
  · intro e he hm
    rw [hit cache uri mt sz bytes e he hm]
    exact ⟨rfl, rfl⟩
  · intro hrec
    cases hg : cacheGet cache uri with
    | none =>
      rw [missNone cache uri mt sz bytes hg]
      exact ⟨rfl, cacheGet_cacheSet_self cache uri _⟩
    | some e =>
      by_cases hm : e.mtime = mt
      · rw [hit cache uri mt sz bytes e hg hm] at hrec
        cases hrec
      · rw [missStale cache uri mt sz bytes e hg hm]
        exact ⟨rfl, cacheGet_cacheSet_self cache uri _⟩
  · intro sz2 bytes2
    obtain ⟨e, he, hm, hc⟩ := hafter
    rw [hit _ uri mt sz2 bytes2 e he hm]
    exact ⟨rfl, hc⟩
  · intro mt2 sz2 bytes2 hne
    obtain ⟨e, he, hm, -⟩ := hafter
    have hstale : e.mtime ≠ mt2 := by rw [hm]; exact fun h => hne h.symm
    rw [missStale _ uri mt2 sz2 bytes2 e he hstale]
    exact ⟨rfl, rfl⟩

/-- Witness instantiating the C4 theorem: starting from an empty cache, the
first request recomputes (miss) and the resulting cache holds the fresh
entry under the requested key. -/
theorem cache_lookup_correct_witness :
    (getFileDecorationCount [] "file:///a.txt" 7 3 [72, 10, 72]).recomputed = true ∧
    (getFileDecorationCount [] "file:///a.txt" 7 3 [72, 10, 72]).count =
      countLines [72, 10, 72] ∧
    cacheGet (getFileDecorationCount [] "file:///a.txt" 7 3 [72, 10, 72]).cache
      "file:///a.txt" = some ⟨countLines [72, 10, 72], 3, 7⟩ :=
  ⟨by decide, (cache_lookup_correct [] "file:///a.txt" 7 3 [72, 10, 72]).2.2.1 (by decide)⟩

/-! ## JavaScript string primitives used by the SLOC classifier

All operations work over `List Char`.  `trim` models `String.prototype.trim`
restricted to the ASCII whitespace characters (all inputs of the verified
properties are ASCII); `indexOf` returns `none` for JavaScript's `-1`. -/
def isJsWhitespace (c : Char) : Bool :=
  c == ' ' || c == '\t' || c == '\n' || c == '\r' || c == '\x0b' || c == '\x0c'

def trim (l : List Char) : List Char :=
  ((l.dropWhile isJsWhitespace).reverse.dropWhile isJsWhitespace).reverse

def indexOf (needle : List Char) : List Char → Option Nat
  | [] => if needle = [] then some 0 else none
  | c :: t =>
    if needle.isPrefixOf (c :: t) then some 0
    else (indexOf needle t).map (· + 1)

/-- `hay.indexOf(needle, from)`; `from` never exceeds the haystack length at
the single call site (`blockStartIndex + blockStart.length`). -/
def indexOfFrom (needle hay : List Char) (start : Nat) : Option Nat :=
  (indexOf needle (hay.drop start)).map (· + start)

/-! ## SLOC classifier (src/lineCounter.ts, countSloc)

`CommentPatterns` mirrors the TypeScript interface: `single` may be absent
(`undefined`), as may the block markers; the block-comment logic runs only
when both `blockStart` and `blockEnd` are present, exactly as in
`if (commentPatterns.blockStart && commentPatterns.blockEnd)`. -/
structure CommentPatterns where
  single : Option (List String)
  blockStart : Option String
  blockEnd : Option String

/-- The single-line-marker loop of `countSloc`: for each marker in order,
a trimmed line starting with the marker is a pure comment (`some false`:
handled, not counted); a marker at a position greater than zero means code
precedes it (`some true`: handled, counted); otherwise the next marker is
tried; `none` means no marker matched. -/
def singleMarkerCheck : List String → List Char → Option Bool
  | [], _ => none
  | p :: rest, trimmed =>
    if p.data.isPrefixOf trimmed then some false
    else
      match indexOf p.data trimmed with
      | some (_ + 1) => some true
      | _ => singleMarkerCheck rest trimmed

/-- The tail of the per-line logic: single-line-comment handling followed by
the default `sloc++`.  Returns (counted?, new in-block state). -/
def slocLineTail (pats : CommentPatterns) (trimmed : List Char) (inBlock : Bool) :
    Bool × Bool :=
  match pats.single with
  | some markers =>
    match singleMarkerCheck markers trimmed with
    | some counted => (counted, inBlock)
    | none => (true, inBlock)
  | none => (true, inBlock)

/-- One iteration of the `for (const line of lines)` loop of `countSloc`.
Returns (counted?, new in-block state). -/
def slocLine (pats : CommentPatterns) (inBlock : Bool) (line : List Char) :
    Bool × Bool :=
  let trimmed := trim line
  if trimmed = [] then (false, inBlock)
  else
    match pats.blockStart, pats.blockEnd with
    | some bs, some be =>
      if inBlock then
        match indexOf be.data trimmed with
        | some j =>
          let afterBlock := trim (trimmed.drop (j + be.data.length))
          (!afterBlock.isEmpty, false)
        | none => (false, true)
      else
        match indexOf bs.data trimmed with
        | some i =>
          match indexOfFrom be.data trimmed (i + bs.data.length) with
          | some j =>
            let beforeBlock := trim (trimmed.take i)
            let afterBlock := trim (trimmed.drop (j + be.data.length))
            (!beforeBlock.isEmpty || !afterBlock.isEmpty, false)
          | none =>
            let beforeBlock := trim (trimmed.take i)
            (!beforeBlock.isEmpty, true)
        | none => slocLineTail pats trimmed false
    | _, _ => slocLineTail pats trimmed inBlock

def slocFold (pats : CommentPatterns) : Bool → List (List Char) → Nat
  | _, [] => 0
  | inB, l :: ls =>
    let r := slocLine pats inB l
    (if r.1 then 1 else 0) + slocFold pats r.2 ls

/-! ### content.split(/\r?\n/)

Splitting on the regex `\r?\n` equals: split on `'\n'`, then remove one
trailing `'\r'` from every segment except the last (every non-final segment
was terminated by a `'\n'`). -/
def splitNl : List Char → List (List Char)
  | [] => [[]]
  | c :: cs =>
    if c = '\n' then [] :: splitNl cs
    else
      match splitNl cs with
      | s :: rest => (c :: s) :: rest
      | [] => [[c]]

def stripTrailingCR (l : List Char) : List Char :=
  match l.getLast? with
  | some '\r' => l.dropLast
  | _ => l

def mapExceptLast (f : List Char → List Char) : List (List Char) → List (List Char)
  | [] => []
  | [x] => [x]
  | x :: y :: xs => f x :: mapExceptLast f (y :: xs)

def splitLines (s : List Char) : List (List Char) :=
  mapExceptLast stripTrailingCR (splitNl s)

/-! ### Language tables (getCommentPatternsForLanguage) -/

def toLowerStr (s : String) : String :=
  ⟨s.data.map Char.toLower⟩

/-- `path.split('.').pop()`: the substring after the last `'.'` anywhere in
the string, or the whole string when it contains no `'.'`. -/
def lastDotSegment : List Char → List Char
  | [] => []
  | c :: t =>
    if t.contains '.' then lastDotSegment t
    else if c = '.' then t
    else c :: t

def langForExt (ext : String) : Option String :=
  match ext with
  | "js" => some "javascript"
  | "ts" => some "typescript"
  | "jsx" => some "javascript"
  | "tsx" => some "typescript"
  | "py" => some "python"
  | "java" => some "java"
  | "c" => some "c"
  | "cpp" => some "cpp"
  | "h" => some "c"
  | "hpp" => some "cpp"
  | "cs" => some "csharp"
  | "rb" => some "ruby"
  | "go" => some "go"
  | "rs" => some "rust"
  | "php" => some "php"
  | "html" => some "html"
  | "css" => some "css"
  | "scss" => some "css"
  | "sass" => some "css"
  | "less" => some "css"
  | "json" => some "json"
  | "yaml" => some "yaml"
  | "yml" => some "yaml"
  | "xml" => some "xml"
  | "sh" => some "shell"
  | "bash" => some "shell"
  | "zsh" => some "shell"
  | "ps1" => some "powershell"
  | "sql" => some "sql"
  | "md" => some "markdown"
  | _ => none

def patternsForLanguage : Option String → CommentPatterns
  | some "javascript" => ⟨some ["//"], some "/*", some "*/"⟩
  | some "typescript" => ⟨some ["//"], some "/*", some "*/"⟩
  | some "java" => ⟨some ["//"], some "/*", some "*/"⟩
  | some "c" => ⟨some ["//"], some "/*", some "*/"⟩
  | some "cpp" => ⟨some ["//"], some "/*", some "*/"⟩
  | some "csharp" => ⟨some ["//"], some "/*", some "*/"⟩
  | some "go" => ⟨some ["//"], some "/*", some "*/"⟩
  | some "rust" => ⟨some ["//"], some "/*", some "*/"⟩
  | some "php" => ⟨some ["//", "#"], some "/*", some "*/"⟩
  | some "python" => ⟨some ["#"], none, none⟩
  | some "ruby" => ⟨some ["#"], none, none⟩
  | some "shell" => ⟨some ["#"], none, none⟩
  | some "yaml" => ⟨some ["#"], none, none⟩
  | some "sql" => ⟨some ["--", "//", "#"], none, none⟩
  | some "html" => ⟨none, some "<!--", some "-->"⟩
  | some "css" => ⟨none, some "/*", some "*/"⟩
  | some "xml" => ⟨none, some "<!--", some "-->"⟩
  | some "markdown" => ⟨none, none, none⟩
  | some "json" => ⟨none, none, none⟩
  | some "powershell" => ⟨some ["#"], some "<#", some "#>"⟩
  | _ => ⟨some ["//", "#"], none, none⟩

def getCommentPatternsForLanguage (language : Option String) (filePath : Option String) :
    CommentPatterns :=
  let lang :=
    match language, filePath with
    | none, some fp => langForExt (toLowerStr ⟨lastDotSegment fp.data⟩)
    | l, _ => l
  patternsForLanguage lang

/-- `countSloc` over in-memory content: the file's text is split on
`\r?\n` and each line classified by the per-line rules. -/
def countSloc (filePath : String) (language : Option String) (content : String) : Nat :=
  slocFold (getCommentPatternsForLanguage language (some filePath)) false
    (splitLines content.data)

/-- The per-line classification marks produced while folding over the lines
(`true` marks a line counted as source). -/
def slocMarks (pats : CommentPatterns) : Bool → List (List Char) → List Bool
  | _, [] => []
  | b, l :: ls => (slocLine pats b l).1 :: slocMarks pats (slocLine pats b l).2 ls

theorem slocFold_eq_count_marks (pats : CommentPatterns) (b : Bool)
    (lines : List (List Char)) :
    slocFold pats b lines = (slocMarks pats b lines).count true := by
  induction lines generalizing b with
  | nil => rfl
  | cons l ls ih =>
    simp only [slocFold, slocMarks, List.count_cons, ih]
    cases h : (slocLine pats b l).1 <;> simp [Nat.add_comm]

theorem slocLine_blank (pats : CommentPatterns) (b : Bool) (line : List Char)
    (h : trim line = []) : slocLine pats b line = (false, b) := by
  unfold slocLine
  simp [h]

/-- The worked JavaScript example of the repository's test suite. -/
def jsExampleContent : String :=
  "// This is a comment\nfunction hello() \x7b\n  // Inline comment\n  return \"world\";\n\x7d\n\n/* Block comment\n   spanning multiple lines */\nconst x = 1;"

/-- The worked Python example of the repository's test suite. -/
def pyExampleContent : String :=
  "# This is a comment\ndef hello():\n    # Another comment\n    return \"world\"\n\nx = 1  # inline comment"

/-- The comment-only example of the repository's test suite. -/
def commentOnlyContent : String :=
  "// Comment 1\n// Comment 2\n/*\n * Block comment\n */"

/-- C5: `countSloc` returns the number of lines classified as source by the
per-line rules: blank lines are skipped; a line inside an open block comment
is skipped unless trimmed text follows the block-end marker; a block comment
opened and closed on the same line counts as source iff non-whitespace text
exists before the start marker or after the end marker; a trimmed line
starting with a single-line marker is skipped, while a marker at a position
greater than zero makes the line count; every other non-blank line counts.
The worked JavaScript and Python examples yield 4 and 3, and a comment-only
file yields 0. -/
theorem countSloc_rules_correct :
    (∀ pats b line, trim line = [] → slocLine pats b line = (false, b)) ∧
    (∀ s bs be line, trim line ≠ [] →
      indexOf be.data (trim line) = none →
      slocLine ⟨s, some bs, some be⟩ true line = (false, true)) ∧
    (∀ s bs be line j, trim line ≠ [] →
      indexOf be.data (trim line) = some j →
      slocLine ⟨s, some bs, some be⟩ true line =
        (!(trim ((trim line).drop (j + be.length))).isEmpty, false)) ∧
    (∀ s bs be line i j, trim line ≠ [] →
      indexOf bs.data (trim line) = some i →
      indexOfFrom be.data (trim line) (i + bs.length) = some j →
      slocLine ⟨s, some bs, some be⟩ false line =
        (!(trim ((trim line).take i)).isEmpty ||
          !(trim ((trim line).drop (j + be.length))).isEmpty, false)) ∧
    (∀ s bs be line i, trim line ≠ [] →
      indexOf bs.data (trim line) = some i →
      indexOfFrom be.data (trim line) (i + bs.length) = none →
      slocLine ⟨s, some bs, some be⟩ false line =
        (!(trim ((trim line).take i)).isEmpty, true)) ∧
    (∀ s bs be line, trim line ≠ [] →
      indexOf bs.data (trim line) = none →
      slocLine ⟨s, some bs, some be⟩ false line =
        slocLineTail ⟨s, some bs, some be⟩ (trim line) false) ∧
    (∀ s b line, trim line ≠ [] →
      slocLine ⟨s, none, none⟩ b line = slocLineTail ⟨s, none, none⟩ (trim line) b) ∧
    (∀ m rest t, m.data.isPrefixOf t = true →
      singleMarkerCheck (m :: rest) t = some false) ∧
    (∀ m rest t i, m.data.isPrefixOf t = false → indexOf m.data t = some (i + 1) →
      singleMarkerCheck (m :: rest) t = some true) ∧
    (∀ pats t b, pats.single = none → slocLineTail pats t b = (true, b)) ∧
    (∀ pats markers t b r, pats.single = some markers →
      singleMarkerCheck markers t = some r → slocLineTail pats t b = (r, b)) ∧
    (∀ pats markers t b, pats.single = some markers →
      singleMarkerCheck markers t = none → slocLineTail pats t b = (true, b)) ∧
    (∀ pats b lines, slocFold pats b lines = (slocMarks pats b lines).count true) ∧
    countSloc "test.js" (some "javascript") jsExampleContent = 4 ∧
    countSloc "test.py" (some "python") pyExampleContent = 3 ∧
    countSloc "comments.js" (some "javascript") commentOnlyContent = 0 := by
  refine ⟨slocLine_blank, ?_, ?_, ?_, ?_, ?_, ?_, ?_, ?_, ?_, ?_, ?_,
    slocFold_eq_count_marks, by decide, by decide, by decide⟩
  · intro s bs be line h1 h2
    unfold slocLine
    simp [h1, h2]
  · intro s bs be line j h1 h2
    unfold slocLine
    simp [h1, h2]
  · intro s bs be line i j h1 h2 h3
    unfold slocLine
    simp [h1, h2, h3]
  · intro s bs be line i h1 h2 h3
    unfold slocLine
    simp [h1, h2, h3]
  · intro s bs be line h1 h2
    unfold slocLine
    simp [h1, h2]
  · intro s b line h1
    unfold slocLine
    simp [h1]
  · intro m rest t h
    unfold singleMarkerCheck
    simp [h]
  · intro m rest t i h1 h2
    unfold singleMarkerCheck
    simp [h1, h2]
  · intro pats t b h
    unfold slocLineTail
    simp [h]
  · intro pats markers t b r h1 h2
    unfold slocLineTail
    simp [h1, h2]
  · intro pats markers t b h1 h2
    unfold slocLineTail
    simp [h1, h2]

/-- Witness instantiating the conditional rules of the C5 theorem: a
whitespace-only line is skipped and leaves the block state unchanged. -/
theorem countSloc_rules_correct_witness :
    trim "   ".data = [] ∧
    slocLine (patternsForLanguage (some "javascript")) false "   ".data = (false, false) :=
  ⟨by decide, countSloc_rules_correct.1 _ false _ (by decide)⟩

/-! ### C9: SLOC never exceeds the line count -/

theorem slocFold_le_length (pats : CommentPatterns) (b : Bool) (lines : List (List Char)) :
    slocFold pats b lines ≤ lines.length := by
  induction lines generalizing b with
  | nil => simp [slocFold]
  | cons l ls ih =>
    simp only [slocFold, List.length_cons]
    have := ih (slocLine pats b l).2
    cases h : (slocLine pats b l).1 <;> simp <;> omega

theorem splitNl_ne_nil (s : List Char) : splitNl s ≠ [] := by
  cases s with
  | nil => simp [splitNl]
  | cons c cs =>
    unfold splitNl
    split
    · simp
    · cases h : splitNl cs <;> simp

theorem splitNl_length (s : List Char) :
    (splitNl s).length = s.count '\n' + 1 := by
  induction s with
  | nil => simp [splitNl]
  | cons c cs ih =>
    unfold splitNl
    by_cases h : c = '\n'
    · simp [h, List.count_cons, ih]
    · simp only [h, if_neg, reduceIte]
      cases hs : splitNl cs with
      | nil => exact absurd hs (splitNl_ne_nil cs)
      | cons l ls =>
        rw [hs] at ih
        simp only [List.length_cons] at ih ⊢
        simp [List.count_cons, h, ih]

theorem mapExceptLast_length (f : List Char → List Char) (l : List (List Char)) :
    (mapExceptLast f l).length = l.length := by
  induction l with
  | nil => rfl
  | cons x xs ih =>
    cases xs with
    | nil => rfl
    | cons y ys => simp [mapExceptLast, List.length_cons] at ih ⊢; exact ih

theorem splitLines_length (s : List Char) :
    (splitLines s).length = s.count '\n' + 1 := by
  rw [splitLines, mapExceptLast_length, splitNl_length]

/-- C9: for every file path, language and text content, the SLOC count is at
most the `countLines` result on the same content's byte stream (SLOC counts
a subset of the lines), and both values are non-negative. -/
theorem countSloc_le_countLines (filePath : String) (language : Option String)
    (content : String) :
    countSloc filePath language content ≤ countLines (strBytes content) ∧
    0 ≤ countSloc filePath language content ∧
    0 ≤ countLines (strBytes content) := by
  refine ⟨?_, Nat.zero_le _, Nat.zero_le _⟩
  by_cases hnil : content.data = []
  · unfold countSloc
    rw [hnil]
    show slocFold _ false [[]] ≤ _
    have hb := slocLine_blank (getCommentPatternsForLanguage language (some filePath))
      false [] rfl
    simp [slocFold, hb]
  · have hcl : countLines (strBytes content) = content.data.count '\n' + 1 := by
      unfold countLines strBytes
      rw [count10_encodeUtf8]
      by_cases h0 : content.data.count '\n' = 0
      · have : encodeUtf8 content.data ≠ [] :=
          fun h => hnil ((encodeUtf8_eq_nil_iff content.data).mp h)
        simp [h0, List.length_eq_zero, this]
      · simp [h0]
    calc countSloc filePath language content
        ≤ (splitLines content.data).length := slocFold_le_length _ _ _
      _ = content.data.count '\n' + 1 := splitLines_length _
      _ = countLines (strBytes content) := hcl.symm

/-! ## Ignore-pattern matcher (extension.ts, globToRegex / matchGlob)

Source:
```
let regex = pattern
  .replace(/[.+*?^${}()|[\]\\]/g, '\\$&')
  .replace(/\\\*\\\*/g, '___GLOBSTAR___')
  .replace(/\\\*/g, '___STAR___')
  .replace(/\\\?/g, '___QM___');
regex = regex
  .replace(/___GLOBSTAR___(\\\/|\/)?/g, '(.*$1)?')
  .replace(/___STAR___/g, '[^/]*')
  .replace(/___QM___/g, '.');
return new RegExp(`^${regex}$`, 'i');
```
The textual pipeline is embedded literally (global replace = leftmost,
non-overlapping).  The resulting regex string lies in a small fragment —
literals, `.`, `[^/]*`, `(.*)?`, `(.*/)?` — which is parsed into a token
list and matched with standard backtracking semantics; the `^...$` anchors
and the `i` flag are part of the matcher (whole-string, case-insensitive
on literals, `.` excludes line terminators). -/
def isRegexSpecial (c : Char) : Bool :=
  c == '.' || c == '+' || c == '*' || c == '?' || c == '^' || c == '$' ||
  c == '\x7b' || c == '\x7d' || c == '(' || c == ')' || c == '|' ||
  c == '[' || c == ']' || c == '\\'

def escapeRegexChars : List Char → List Char
  | [] => []
  | c :: t => if isRegexSpecial c then '\\' :: c :: escapeRegexChars t
              else c :: escapeRegexChars t

/-- Global leftmost non-overlapping replacement of a fixed non-empty needle
(`String.prototype.replace` with a global literal-text regex).  The fuel is
the remaining haystack length; every step consumes at least one character,
so `replaceAllFuel s.length needle repl s` is the untruncated function. -/
def replaceAllFuel (needle repl : List Char) : Nat → List Char → List Char
  | 0, s => s
  | _ + 1, [] => []
  | fuel + 1, c :: t =>
    if needle ≠ [] ∧ needle.isPrefixOf (c :: t) then
      repl ++ replaceAllFuel needle repl fuel ((c :: t).drop needle.length)
    else
      c :: replaceAllFuel needle repl fuel t

def replaceAll (needle repl s : List Char) : List Char :=
  replaceAllFuel needle repl s.length s

/-- The `.replace(/___GLOBSTAR___(\\\/|\/)?/g, '(.*$1)?')` step: the
sentinel, optionally followed by an escaped or plain slash (tried in the
alternation's order), becomes an optional group that re-emits the captured
slash ($1 is empty when the group did not participate). -/
def globStarReplaceFuel : Nat → List Char → List Char
  | 0, s => s
  | _ + 1, [] => []
  | fuel + 1, c :: t =>
    if ("___GLOBSTAR___".data).isPrefixOf (c :: t) then
      let rest := (c :: t).drop 14
      if ("\\/".data).isPrefixOf rest then
        "(.*\\/)?".data ++ globStarReplaceFuel fuel (rest.drop 2)
      else if ("/".data).isPrefixOf rest then
        "(.*/)?".data ++ globStarReplaceFuel fuel (rest.drop 1)
      else
        "(.*)?".data ++ globStarReplaceFuel fuel rest
    else
      c :: globStarReplaceFuel fuel t

def globToRegexStr (pattern : String) : List Char :=
  let s1 := escapeRegexChars pattern.data
  let s2 := replaceAll "\\*\\*".data "___GLOBSTAR___".data s1
  let s3 := replaceAll "\\*".data "___STAR___".data s2
  let s4 := replaceAll "\\?".data "___QM___".data s3
  let s5 := globStarReplaceFuel s4.length s4
  let s6 := replaceAll "___STAR___".data "[^/]*".data s5
  replaceAll "___QM___".data ".".data s6

/-- The regex fragment emitted by the pipeline. -/
inductive Tok where
  | lit (c : Char)
  | anyOne
  | starNoSlash
  | globStarOpt
  | globStarSlashOpt
deriving DecidableEq

/-- Parser for the emitted fragment.  `none` (an unescaped metacharacter
outside the fragment, possible only when the glob pattern itself contains
sentinel text) makes `matchGlob` return `false`. -/
def parseRegex : List Char → Option (List Tok)
  | [] => some []
  | '(' :: '.' :: '*' :: '/' :: ')' :: '?' :: rest =>
    (parseRegex rest).map (Tok.globStarSlashOpt :: ·)
  | '(' :: '.' :: '*' :: '\\' :: '/' :: ')' :: '?' :: rest =>
    (parseRegex rest).map (Tok.globStarSlashOpt :: ·)
  | '(' :: '.' :: '*' :: ')' :: '?' :: rest =>
    (parseRegex rest).map (Tok.globStarOpt :: ·)
  | '[' :: '^' :: '/' :: ']' :: '*' :: rest =>
    (parseRegex rest).map (Tok.starNoSlash :: ·)
  | '.' :: rest => (parseRegex rest).map (Tok.anyOne :: ·)
  | '\\' :: c :: rest => (parseRegex rest).map (Tok.lit c :: ·)
  | c :: rest =>
    if isRegexSpecial c then none
    else (parseRegex rest).map (Tok.lit c :: ·)

/-- JavaScript `.` (without the `s` flag) matches everything except line
terminators. -/
def isNotLineTerminator (c : Char) : Bool :=
  !(c == '\n' || c == '\r' || c == '\u2028' || c == '\u2029')

/-- `.*` followed by the continuation: try the continuation at every suffix
reachable by skipping non-terminator characters. -/
def anySuffix (p : List Char → Bool) : List Char → Bool
  | [] => p []
  | c :: t => p (c :: t) || (isNotLineTerminator c && anySuffix p t)

/-- `[^/]*` followed by the continuation. -/
def starNoSlashSuffix (p : List Char → Bool) : List Char → Bool
  | [] => p []
  | c :: t => p (c :: t) || (!(c == '/') && starNoSlashSuffix p t)

/-- the committed branch of `(.*/)?`: some characters, then a `/`, then the
continuation. -/
def slashSegSuffix (p : List Char → Bool) : List Char → Bool
  | [] => false
  | c :: t => (c == '/' && p t) || (isNotLineTerminator c && slashSegSuffix p t)

/-- Anchored, case-insensitive match of the token list against the whole
character list (the `^...$` anchors and `i` flag of the produced RegExp). -/
def toksMatch : List Tok → List Char → Bool
  | [], s => s.isEmpty
  | Tok.lit _ :: _, [] => false
  | Tok.lit c :: ts, d :: ds => (c.toLower == d.toLower) && toksMatch ts ds
  | Tok.anyOne :: _, [] => false
  | Tok.anyOne :: ts, d :: ds => isNotLineTerminator d && toksMatch ts ds
  | Tok.starNoSlash :: ts, s => starNoSlashSuffix (toksMatch ts) s
  | Tok.globStarOpt :: ts, s => anySuffix (toksMatch ts) s
  | Tok.globStarSlashOpt :: ts, s => toksMatch ts s || slashSegSuffix (toksMatch ts) s

def matchGlob (filePath pattern : String) : Bool :=
  match parseRegex (globToRegexStr pattern) with
  | some toks => toksMatch toks filePath.data
  | none => false

theorem toksMatch_single_star (s : List Char) :
    toksMatch [Tok.starNoSlash] s = s.all (fun c => !(c == '/')) := by
  induction s with
  | nil => rfl
  | cons c t ih =>
    simp only [toksMatch, starNoSlashSuffix, List.all_cons] at ih ⊢
    rw [ih]
    cases h : c == '/' <;> simp [toksMatch]

/-- C7: the glob matcher performs anchored, case-insensitive whole-path
matching; `*` matches any run of characters excluding path separators
(shown both in general — a lone `*` pattern accepts exactly the
separator-free paths — and on the claimed examples), `**` crosses
separators, `?` matches a single character.  `**/node_modules/**` matches
`project/node_modules/pkg/index.js` but not `project/src/node_modules.js`;
`**/*.min.js` matches `dist/app.min.js` (in any letter case) but not
`dist/app.js`. -/
theorem matchGlob_correct :
    matchGlob "project/node_modules/pkg/index.js" "**/node_modules/**" = true ∧
    matchGlob "project/src/node_modules.js" "**/node_modules/**" = false ∧
    matchGlob "dist/app.min.js" "**/*.min.js" = true ∧
    matchGlob "dist/app.js" "**/*.min.js" = false ∧
    matchGlob "DIST/APP.MIN.JS" "**/*.min.js" = true ∧
    (∀ s : String, matchGlob s "*" = s.data.all (fun c => !(c == '/'))) ∧
    matchGlob "app.min.js" "*.min.js" = true ∧
    matchGlob "dist/app.min.js" "*.min.js" = false ∧
    matchGlob "xapp.min.js.bak" "*.min.js" = false ∧
    matchGlob "file1.js" "file?.js" = true ∧
    matchGlob "file12.js" "file?.js" = false := by
  refine ⟨by decide, by decide, by decide, by decide, by decide, ?_,
    by decide, by decide, by decide, by decide, by decide⟩
  intro s
  show toksMatch [Tok.starNoSlash] s.data = _
  exact toksMatch_single_star s.data

/-! ## Ignored-extension filter (provideFileDecoration)

Source:
```
const ext = uri.path.split('.').pop()?.toLowerCase();
if (ext && this.ignoredExtensions.has(ext)) { return undefined; }
```
with the set built in `reloadConfig` as
`new Set(ignored.map((ext) => ext.toLowerCase().replace(/^\./, '')))`. -/
def extKey (uriPath : String) : String :=
  toLowerStr ⟨lastDotSegment uriPath.data⟩

def stripLeadingDot (s : String) : String :=
  match s.data with
  | '.' :: t => ⟨t⟩
  | _ => s

def normalizeIgnoredExt (e : String) : String :=
  stripLeadingDot (toLowerStr e)

/-- The whole suppression test: `ext` truthy and member of the configured
set (entries normalized as in `reloadConfig`). -/
def suppressedByExt (configIgnored : List String) (uriPath : String) : Bool :=
  let ext := extKey uriPath
  !(ext == "") && (configIgnored.map normalizeIgnoredExt).contains ext

theorem lastDotSegment_no_dot (l : List Char) : '.' ∉ lastDotSegment l := by
  induction l with
  | nil => intro h; cases h
  | cons c t ih =>
    unfold lastDotSegment
    by_cases hb : t.contains '.' = true
    · rw [if_pos hb]; exact ih
    · rw [if_neg hb]
      have hmem : '.' ∉ t := fun hm => hb (List.elem_iff.mpr hm)
      by_cases hc : c = '.'
      · rw [if_pos hc]; exact hmem
      · rw [if_neg hc]
        intro hm
        rcases List.mem_cons.mp hm with h1 | h1
        · exact hc h1.symm
        · exact hmem h1

theorem char_toNat_ofNat {m : Nat} (h : m.isValidChar) : (Char.ofNat m).toNat = m := by
  rw [Char.ofNat, dif_pos h]
  rfl

theorem toLower_ne_dot (c : Char) (hc : c ≠ '.') : c.toLower ≠ '.' := by
  have hdef : c.toLower =
      if c.toNat ≥ 65 ∧ c.toNat ≤ 90 then Char.ofNat (c.toNat + 32) else c := rfl
  rw [hdef]
  by_cases h : c.toNat ≥ 65 ∧ c.toNat ≤ 90
  · rw [if_pos h]
    intro he
    have h2 := congrArg Char.toNat he
    have hval : Nat.isValidChar (c.toNat + 32) := by
      unfold Nat.isValidChar
      exact Or.inl (by omega)
    rw [char_toNat_ofNat hval] at h2
    have hd : ('.' : Char).toNat = 46 := rfl
    omega
  · rw [if_neg h]
    exact hc

theorem extKey_no_dot (path : String) : '.' ∉ (extKey path).data := by
  show '.' ∉ (lastDotSegment path.data).map Char.toLower
  intro hm
  rcases List.mem_map.mp hm with ⟨c, hcmem, hce⟩
  by_cases hc : c = '.'
  · subst hc
    exact lastDotSegment_no_dot path.data hcmem
  · exact toLower_ne_dot c hc hce

theorem lastDotSegment_of_no_dot (l : List Char) (h : '.' ∉ l) :
    lastDotSegment l = l := by
  cases l with
  | nil => rfl
  | cons c t =>
    have hc : ¬ c = '.' := fun he => h (by rw [he]; exact List.mem_cons_self '.' t)
    have ht : '.' ∉ t := fun hm => h (List.mem_cons_of_mem c hm)
    have hb : ¬ t.contains '.' = true := fun hbb => ht (List.elem_iff.mp hbb)
    unfold lastDotSegment
    rw [if_neg hb, if_neg hc]

/-- C10: the filter compares only the lower-cased substring after the last
`'.'` of the URI path against the configured set; that substring never
contains a `'.'`, so a multi-segment entry such as `"min.js"` (normalized
unchanged by `reloadConfig`) can never suppress any file — in particular
`app.min.js` is compared under extension `js` — and a path without any dot
is compared under its entire (lower-cased) remaining path string. -/
theorem extension_filter_correct :
    (∀ path : String, '.' ∉ (extKey path).data) ∧
    (∀ entry path : String, '.' ∈ (normalizeIgnoredExt entry).data →
      extKey path ≠ normalizeIgnoredExt entry) ∧
    (∀ path : String, suppressedByExt ["min.js"] path = false) ∧
    extKey "app.min.js" = "js" ∧
    normalizeIgnoredExt "min.js" = "min.js" ∧
    (∀ path : String, '.' ∉ path.data → extKey path = toLowerStr path) := by
  have hne : ∀ entry path : String, '.' ∈ (normalizeIgnoredExt entry).data →
      extKey path ≠ normalizeIgnoredExt entry := by
    intro entry path hdot he
    have hmem : '.' ∈ (extKey path).data := by rw [he]; exact hdot
    exact extKey_no_dot path hmem
  refine ⟨extKey_no_dot, hne, ?_, by decide, by decide, ?_⟩
  · intro path
    unfold suppressedByExt
    have h := hne "min.js" path (by decide)
    have hb : (extKey path == normalizeIgnoredExt "min.js") = false := by
      cases hbb : extKey path == normalizeIgnoredExt "min.js"
      · rfl
      · exact absurd (eq_of_beq hbb) h
    simp [hb]
    exact fun _ => h
  · intro path h
    unfold extKey
    rw [lastDotSegment_of_no_dot path.data h]

/-- Witness instantiating the conditional parts of the C10 theorem: the
entry `"min.js"` keeps its dot after normalization and therefore never
equals a computed extension key, and a dot-free path is keyed by its whole
lower-cased path. -/
theorem extension_filter_correct_witness :
    '.' ∈ (normalizeIgnoredExt "min.js").data ∧
    extKey "app.min.js" ≠ normalizeIgnoredExt "min.js" ∧
    '.' ∉ ("README" : String).data ∧
    extKey "README" = toLowerStr "README" :=
  ⟨by decide, extension_filter_correct.2.1 "min.js" "app.min.js" (by decide),
   by decide, extension_filter_correct.2.2.2.2.2 "README" (by decide)⟩

/-! ## Directory aggregation (extension.ts, calculateDirectoryLines)

Source:
```
let total = 0;
const entries = await readdirAsync(dirPath, { withFileTypes: true });
for (const entry of entries) {
  if (entry.isDirectory()) {
    if (entry.name.startsWith('.') || entry.name === 'node_modules') continue;
    const subdirPath = path.join(dirPath, entry.name);
    if (!this.matchesIgnoredPattern(subdirPath)) {
      total += await this.calculateDirectoryLines(subdirPath);
    }
  } else if (entry.isFile()) {
    const filePath = path.join(dirPath, entry.name);
    const ext = path.extname(filePath).slice(1).toLowerCase();
    if (!this.ignoredExtensions.has(ext) && !this.matchesIgnoredPattern(filePath)) {
      try {
        const stats = await statAsync(filePath);
        if (stats.size <= this.fileSizeLimitBytes) {
          total += await countLines(filePath);
        }
      } catch \x7b\x7d // errors ignored
    }
  }
}
return total;
```
A directory listing is a list of entries; a file's `content = none` models a
stat or read failure (the swallowed `catch`), `path.join` is modelled as
`dirPath ++ "/" ++ name`, and `vscode.workspace.asRelativePath` is an
abstract collaborator carried in the configuration. -/
structure Config where
  ignoredExtensions : List String
  ignoredPatterns : List String
  fileSizeLimitBytes : Nat
  relativePath : String → String

def matchesIgnoredPattern (cfg : Config) (filePath : String) : Bool :=
  cfg.ignoredPatterns.any (fun pattern =>
    matchGlob (cfg.relativePath filePath) pattern || matchGlob filePath pattern)

/-- `path.basename`: the component after the last `'/'`. -/
def basenameChars : List Char → List Char
  | [] => []
  | c :: t =>
    if t.contains '/' then basenameChars t
    else if c = '/' then t
    else c :: t

/-- `path.extname(filePath).slice(1)`: the characters after the last `'.'`
of the basename when that dot is not its first character, else empty. -/
def extAfterLastDot (b : List Char) : List Char :=
  match b with
  | [] => []
  | _ :: t => if t.contains '.' then lastDotSegment t else []

def extnameKey (filePath : String) : String :=
  toLowerStr ⟨extAfterLastDot (basenameChars filePath.data)⟩

/-- JavaScript `String.prototype.startsWith`. -/
def jsStartsWith (s pre : String) : Bool :=
  pre.data.isPrefixOf s.data

/-- A directory's `readdirAsync` result is fallible: `none` models a listing
failure (permission denied, vanished directory).  A file's `content = none`
models a stat or read failure. -/
inductive FsEntry where
  | file (name : String) (size : Nat) (content : Option (List Nat))
  | dir (name : String) (listing : Option (List FsEntry))

/-- `calculateDirectoryLines`, applied to the `readdir` result of the
directory it was called on.  Only the per-file stat/read sits inside a
`try/catch` in the source; the `readdirAsync` call and the recursive
`calculateDirectoryLines(subdirPath)` are uncaught, so a listing failure
rejects the whole computation — modelled by `Option Nat` with `none`
propagating outward exactly like the exception (the caller,
`getDirectoryDecoration`, catches it and shows no decoration at all). -/
def calculateDirectoryLines (cfg : Config) (dirPath : String) :
    Option (List FsEntry) → Option Nat
  | none => none
  | some [] => some 0
  | some (FsEntry.file name size content :: rest) =>
    (calculateDirectoryLines cfg dirPath (some rest)).map (fun total =>
      (if !(cfg.ignoredExtensions.contains (extnameKey (dirPath ++ "/" ++ name))) &&
          !(matchesIgnoredPattern cfg (dirPath ++ "/" ++ name)) then
        match content with
        | some bytes => if size ≤ cfg.fileSizeLimitBytes then countLines bytes else 0
        | none => 0
      else 0) + total)
  | some (FsEntry.dir name listing :: rest) =>
    if jsStartsWith name "." || name == "node_modules" then
      calculateDirectoryLines cfg dirPath (some rest)
    else if !(matchesIgnoredPattern cfg (dirPath ++ "/" ++ name)) then
      match calculateDirectoryLines cfg (dirPath ++ "/" ++ name) listing with
      | none => none
      | some sub => (calculateDirectoryLines cfg dirPath (some rest)).map (sub + ·)
    else
      calculateDirectoryLines cfg dirPath (some rest)

/-- Modelled from the spec: a file is part of the aggregate when it is
neither extension- nor pattern-ignored and not oversized. -/
def fileIncluded (cfg : Config) (filePath : String) (size : Nat) : Bool :=
  !(cfg.ignoredExtensions.contains (extnameKey filePath)) &&
  !(matchesIgnoredPattern cfg filePath) &&
  size ≤ cfg.fileSizeLimitBytes

/-- Modelled from the spec: aggregation recurses only into non-hidden,
non-`node_modules`, non-pattern-ignored subdirectories. -/
def dirRecursed (cfg : Config) (name subdirPath : String) : Bool :=
  !(jsStartsWith name "." || name == "node_modules") &&
  !(matchesIgnoredPattern cfg subdirPath)

/-- Modelled from the spec (amended): every directory the aggregation
recurses into can actually be listed. -/
def allListable (cfg : Config) (dirPath : String) : Option (List FsEntry) → Bool
  | none => false
  | some [] => true
  | some (FsEntry.file _ _ _ :: rest) => allListable cfg dirPath (some rest)
  | some (FsEntry.dir name listing :: rest) =>
    (if dirRecursed cfg name (dirPath ++ "/" ++ name) then
       allListable cfg (dirPath ++ "/" ++ name) listing
     else true) && allListable cfg dirPath (some rest)

/-- Modelled from the spec: the contents of every non-ignored, non-oversized
regular file in the subtree, at every depth (`none` = unreadable). -/
def countedFiles (cfg : Config) (dirPath : String) :
    Option (List FsEntry) → List (Option (List Nat))
  | none => []
  | some [] => []
  | some (FsEntry.file name size content :: rest) =>
    (if fileIncluded cfg (dirPath ++ "/" ++ name) size then [content] else []) ++
      countedFiles cfg dirPath (some rest)
  | some (FsEntry.dir name listing :: rest) =>
    (if dirRecursed cfg name (dirPath ++ "/" ++ name) then
       countedFiles cfg (dirPath ++ "/" ++ name) listing
     else []) ++ countedFiles cfg dirPath (some rest)

/-- A readable file contributes its `countLines`; a failed read contributes
zero. -/
def fileContribution : Option (List Nat) → Nat
  | some bytes => countLines bytes
  | none => 0

theorem calcDirLines_none (cfg : Config) (d : String) :
    calculateDirectoryLines cfg d none = none := by
  rw [calculateDirectoryLines.eq_def]

theorem calcDirLines_nil (cfg : Config) (d : String) :
    calculateDirectoryLines cfg d (some []) = some 0 := by
  rw [calculateDirectoryLines.eq_def]

theorem calcDirLines_file (cfg : Config) (d name : String) (size : Nat)
    (content : Option (List Nat)) (rest : List FsEntry) :
    calculateDirectoryLines cfg d (some (FsEntry.file name size content :: rest)) =
      (calculateDirectoryLines cfg d (some rest)).map (fun total =>
        (if !(cfg.ignoredExtensions.contains (extnameKey (d ++ "/" ++ name))) &&
            !(matchesIgnoredPattern cfg (d ++ "/" ++ name)) then
          match content with
          | some bytes => if size ≤ cfg.fileSizeLimitBytes then countLines bytes else 0
          | none => 0
        else 0) + total) := by
  rw [calculateDirectoryLines.eq_def]

theorem calcDirLines_dir (cfg : Config) (d name : String)
    (listing : Option (List FsEntry)) (rest : List FsEntry) :
    calculateDirectoryLines cfg d (some (FsEntry.dir name listing :: rest)) =
      if jsStartsWith name "." || name == "node_modules" then
        calculateDirectoryLines cfg d (some rest)
      else if !(matchesIgnoredPattern cfg (d ++ "/" ++ name)) then
        match calculateDirectoryLines cfg (d ++ "/" ++ name) listing with
        | none => none
        | some sub => (calculateDirectoryLines cfg d (some rest)).map (sub + ·)
      else
        calculateDirectoryLines cfg d (some rest) := by
  rw [calculateDirectoryLines.eq_def]

theorem countedFiles_nil (cfg : Config) (d : String) :
    countedFiles cfg d (some []) = [] := by
  rw [countedFiles.eq_def]

theorem countedFiles_file (cfg : Config) (d name : String) (size : Nat)
    (content : Option (List Nat)) (rest : List FsEntry) :
    countedFiles cfg d (some (FsEntry.file name size content :: rest)) =
      (if fileIncluded cfg (d ++ "/" ++ name) size then [content] else []) ++
        countedFiles cfg d (some rest) := by
  rw [countedFiles.eq_def]

theorem countedFiles_dir (cfg : Config) (d name : String)
    (listing : Option (List FsEntry)) (rest : List FsEntry) :
    countedFiles cfg d (some (FsEntry.dir name listing :: rest)) =
      (if dirRecursed cfg name (d ++ "/" ++ name) then
         countedFiles cfg (d ++ "/" ++ name) listing
       else []) ++ countedFiles cfg d (some rest) := by
  rw [countedFiles.eq_def]

theorem allListable_nil (cfg : Config) (d : String) :
    allListable cfg d (some []) = true := by
  rw [allListable.eq_def]

theorem allListable_file (cfg : Config) (d name : String) (size : Nat)
    (content : Option (List Nat)) (rest : List FsEntry) :
    allListable cfg d (some (FsEntry.file name size content :: rest)) =
      allListable cfg d (some rest) := by
  rw [allListable.eq_def]

theorem allListable_dir (cfg : Config) (d name : String)
    (listing : Option (List FsEntry)) (rest : List FsEntry) :
    allListable cfg d (some (FsEntry.dir name listing :: rest)) =
      ((if dirRecursed cfg name (d ++ "/" ++ name) then
          allListable cfg (d ++ "/" ++ name) listing
        else true) && allListable cfg d (some rest)) := by
  rw [allListable.eq_def]

/-- The configuration used by the concrete C6 instances: nothing ignored,
the default 10 MiB ceiling, identity workspace-relativization. -/
def emptyConfig : Config :=
  ⟨[], [], 10485760, fun s => s⟩

/-- C6 counterexample: one unlistable subdirectory next to one readable
file.  The listing failure does not contribute zero — it aborts the whole
aggregate (`none`), although the sibling alone would aggregate to 2 and is
neither ignored nor oversized. -/
theorem directory_aggregate_counterexample :
    calculateDirectoryLines emptyConfig "root"
      (some [FsEntry.dir "sub" none, FsEntry.file "a.txt" 3 (some [72, 10, 72])]) =
      none ∧
    dirRecursed emptyConfig "sub" ("root" ++ "/" ++ "sub") = true ∧
    fileIncluded emptyConfig ("root" ++ "/" ++ "a.txt") 3 = true ∧
    calculateDirectoryLines emptyConfig "root"
      (some [FsEntry.file "a.txt" 3 (some [72, 10, 72])]) = some 2 := by
  refine ⟨?_, by decide, by decide, ?_⟩
  · rw [calcDirLines_dir, calcDirLines_none]
    decide
  · rw [calcDirLines_file, calcDirLines_nil]
    decide

/-- C6 (amended): when every subdirectory the aggregation recurses into is
listable, the aggregate equals the sum of `countLines` over every
non-ignored, non-oversized regular file in the subtree at every depth
(recursion only enters non-ignored, non-hidden subdirectories); a failure
to read an individual file contributes zero without aborting the
aggregation of the remaining entries; but a failure to list a non-ignored,
non-hidden subdirectory propagates uncaught and aborts the whole
aggregate instead of contributing zero. -/
theorem directory_aggregate_corrected (cfg : Config) (dirPath : String)
    (listing : Option (List FsEntry)) :
    (allListable cfg dirPath listing = true →
      calculateDirectoryLines cfg dirPath listing =
        some ((countedFiles cfg dirPath listing).map fileContribution).sum) ∧
    (∀ name size rest,
      calculateDirectoryLines cfg dirPath (some (FsEntry.file name size none :: rest)) =
        calculateDirectoryLines cfg dirPath (some rest)) ∧
    (∀ name rest, dirRecursed cfg name (dirPath ++ "/" ++ name) = true →
      calculateDirectoryLines cfg dirPath (some (FsEntry.dir name none :: rest)) =
        none) := by
  refine ⟨?_, ?_, ?_⟩
  · induction dirPath, listing using calculateDirectoryLines.induct cfg with
    | case1 d =>
      intro h
      rw [allListable.eq_def] at h
      cases h
    | case2 d =>
      intro h
      rw [calcDirLines_nil, countedFiles_nil]
      rfl
    | case3 d name size content rest ih =>
      intro h
      rw [allListable_file] at h
      rw [calcDirLines_file, countedFiles_file, List.map_append, List.sum_append, ih h]
      by_cases hext : extnameKey (d ++ "/" ++ name) ∈ cfg.ignoredExtensions
      · simp [fileIncluded, hext]
      · by_cases hpat : matchesIgnoredPattern cfg (d ++ "/" ++ name) = true
        · simp [fileIncluded, hext, hpat]
        · cases content with
          | none =>
            by_cases hsz : size ≤ cfg.fileSizeLimitBytes <;>
              simp [fileIncluded, hext, hpat, hsz, fileContribution]
          | some bytes =>
            by_cases hsz : size ≤ cfg.fileSizeLimitBytes <;>
              simp [fileIncluded, hext, hpat, hsz, fileContribution]
    | case4 d name listing rest hhid ih =>
      intro h
      rw [allListable_dir, Bool.and_eq_true] at h
      have hrec : dirRecursed cfg name (d ++ "/" ++ name) = false := by
        simp [dirRecursed, hhid]
      rw [calcDirLines_dir, countedFiles_dir, List.map_append, List.sum_append]
      simp [hhid, hrec, ih h.2]
    | case5 d name listing rest hhid hpat hnone ihsub =>
      intro h
      exfalso
      rw [allListable_dir, Bool.and_eq_true] at h
      have hhid2 : (jsStartsWith name "." || name == "node_modules") = false := by
        cases hb : jsStartsWith name "." || name == "node_modules"
        · rfl
        · exact absurd hb hhid
      have hrec : dirRecursed cfg name (d ++ "/" ++ name) = true := by
        simp [dirRecursed, hhid2, hpat]
      rw [hrec, if_pos rfl] at h
      rw [ihsub h.1] at hnone
      cases hnone
    | case6 d name listing rest hhid hpat sub hsome ihsub ih =>
      intro h
      rw [allListable_dir, Bool.and_eq_true] at h
      have hhid2 : (jsStartsWith name "." || name == "node_modules") = false := by
        cases hb : jsStartsWith name "." || name == "node_modules"
        · rfl
        · exact absurd hb hhid
      have hrec : dirRecursed cfg name (d ++ "/" ++ name) = true := by
        simp [dirRecursed, hhid2, hpat]
      rw [hrec, if_pos rfl] at h
      have hcalc := ihsub h.1
      rw [calcDirLines_dir, countedFiles_dir, List.map_append, List.sum_append]
      simp [hhid2, hpat, hcalc, hrec, ih h.2]
    | case7 d name listing rest hhid hpat ih =>
      intro h
      rw [allListable_dir, Bool.and_eq_true] at h
      have hhid2 : (jsStartsWith name "." || name == "node_modules") = false := by
        cases hb : jsStartsWith name "." || name == "node_modules"
        · rfl
        · exact absurd hb hhid
      have hm : matchesIgnoredPattern cfg (d ++ "/" ++ name) = true := by
        cases hb : matchesIgnoredPattern cfg (d ++ "/" ++ name)
        · exact absurd (by rw [hb]; rfl) hpat
        · rfl
      have hrec : dirRecursed cfg name (d ++ "/" ++ name) = false := by
        simp [dirRecursed, hm]
      rw [calcDirLines_dir, countedFiles_dir, List.map_append, List.sum_append]
      simp [hhid2, hm, hrec, ih h.2]
  · intro name size rest
    rw [calcDirLines_file]
    cases hr : calculateDirectoryLines cfg dirPath (some rest) with
    | none => rfl
    | some t =>
      cases hc : !(cfg.ignoredExtensions.contains (extnameKey (dirPath ++ "/" ++ name))) &&
          !(matchesIgnoredPattern cfg (dirPath ++ "/" ++ name)) <;>
        simp [hc]
  · intro name rest hrec
    rw [calcDirLines_dir, calcDirLines_none]
    simp only [dirRecursed, Bool.and_eq_true, Bool.not_eq_true'] at hrec
    simp [hrec.1, hrec.2]


/-- Witness instantiating the C6 amended theorem: a fully listable
single-file tree aggregates to exactly that file's line count, and a
recursed-into unlistable subdirectory aborts the aggregate. -/
theorem directory_aggregate_corrected_witness :
    allListable emptyConfig "root" (some [FsEntry.file "a.txt" 3 (some [72, 10, 72])]) = true ∧
    dirRecursed emptyConfig "docs" ("root" ++ "/" ++ "docs") = true ∧
    calculateDirectoryLines emptyConfig "root"
      (some [FsEntry.file "a.txt" 3 (some [72, 10, 72])]) = some 2 ∧
    calculateDirectoryLines emptyConfig "root" (some [FsEntry.dir "docs" none]) = none := by
  have hlist : allListable emptyConfig "root"
      (some [FsEntry.file "a.txt" 3 (some [72, 10, 72])]) = true := by
    rw [allListable_file, allListable_nil]
  have hrec : dirRecursed emptyConfig "docs" ("root" ++ "/" ++ "docs") = true := by decide
  refine ⟨hlist, hrec, ?_, ?_⟩
  · have h := (directory_aggregate_corrected emptyConfig "root"
      (some [FsEntry.file "a.txt" 3 (some [72, 10, 72])])).1 hlist
    rw [h, countedFiles_file, countedFiles_nil]
    decide
  · exact (directory_aggregate_corrected emptyConfig "root"
      (some [FsEntry.dir "docs" none])).2.2 "docs" [] hrec

end LinePeek
